import Mathlib

/-!
Verification development for the `latex-tools` editor package.

The two components under study are the build log interpreter
(`LogParser` — `parse`, its pattern matchers and continuation
collectors) and the build lifecycle registry (`BuildService` —
`startBuild` / `finishBuild` / `failBuild` / `getStatus` / `compile`).

Both are shallowly embedded below as executable Lean functions.
Strings are modelled as `List Char`; JavaScript regular expressions are
translated, pattern by pattern, into deterministic matching functions
that replicate the greedy/backtracking behaviour of the concrete
patterns appearing in the source (each matcher's doc comment names the
pattern it embeds).  JavaScript numbers that only ever hold integral
values (line numbers, timestamps) are modelled as `Nat`/`Int`;
truthiness tests (`x ? a : b`, `x || null`) are modelled explicitly
wherever the tested value can be `0`, `""`, `null` or `undefined`.
-/

namespace LTools

/-- Strings are lists of characters. -/
abbrev Str := List Char

/-- Shorthand for turning a Lean string literal into the model type. -/
def S (s : String) : Str := s.data

/-- JavaScript `\s` (whitespace) character class: ASCII whitespace,
NBSP, the Unicode space separators, the line separators U+2028/U+2029
and the BOM. -/
def isWsChar (c : Char) : Bool :=
  c.toNat = 9 || c.toNat = 10 || c.toNat = 11 || c.toNat = 12 ||
  c.toNat = 13 || c.toNat = 32 || c.toNat = 0xa0 || c.toNat = 0x1680 ||
  (0x2000 <= c.toNat && c.toNat <= 0x200a) || c.toNat = 0x2028 ||
  c.toNat = 0x2029 || c.toNat = 0x202f || c.toNat = 0x205f ||
  c.toNat = 0x3000 || c.toNat = 0xfeff

/-- JavaScript `\d` character class. -/
def isDigitChar (c : Char) : Bool := '0' <= c && c <= '9'

/-- JavaScript `.` (dot) without the `s` flag: any character except the
line terminators LF, CR, U+2028, U+2029. -/
def jsDot (c : Char) : Bool :=
  !(c.toNat = 10 || c.toNat = 13 || c.toNat = 0x2028 || c.toNat = 0x2029)

/-- JavaScript `String.prototype.trim`: strip leading and trailing
whitespace. -/
def jsTrim (s : Str) : Str :=
  ((s.dropWhile isWsChar).reverse.dropWhile isWsChar).reverse

/-- `replace(/\s+/g, " ")`: collapse every maximal whitespace run to a
single space.  The boolean tracks whether the previous character was
whitespace. -/
def collapseWsGo : Bool → Str → Str
  | _, [] => []
  | inRun, c :: rest =>
    if isWsChar c then
      if inRun then collapseWsGo true rest else ' ' :: collapseWsGo true rest
    else c :: collapseWsGo false rest

/-- `replace(/\s+/g, " ")`. -/
def collapseWs (s : Str) : Str := collapseWsGo false s

/-- `parseInt(digits, 10)` on a string of decimal digits. -/
def parseNatDigits (ds : Str) : Nat :=
  ds.foldl (fun n c => n * 10 + (c.toNat - 48)) 0

/-- Strip a literal prefix, returning the remainder on success. -/
def dropLit : Str → Str → Option Str
  | [], s => some s
  | _, [] => none
  | l :: ls, c :: cs => if c = l then dropLit ls cs else none

/-- `logContent.split(/\r?\n/)`: split into lines on `\n` optionally
preceded by `\r`; a lone `\r` is not a separator. -/
def splitLines : Str → List Str
  | [] => [[]]
  | '\n' :: rest => [] :: splitLines rest
  | '\r' :: '\n' :: rest => [] :: splitLines rest
  | c :: rest =>
    match splitLines rest with
    | [] => [[c]]
    | l :: ls => (c :: l) :: ls

/-! ### Node `path` (POSIX flavour)

`path.dirname`, `path.basename` and `path.resolve` as used by the
parser and service.  `path.resolve` needs a current working directory
when every argument is relative; the process cwd is modelled as `/`. -/

/-- Split a path on `/` (keeping empty segments, like `String.split`). -/
def splitSlash : Str → List Str
  | [] => [[]]
  | c :: rest =>
    if c = '/' then [] :: splitSlash rest
    else
      match splitSlash rest with
      | [] => [[c]]
      | l :: ls => (c :: l) :: ls

/-- Normalisation step for an absolute path: drop empty and `.`
segments, let `..` pop (stopping at the root). -/
def normSegs (segs : List Str) : List Str :=
  segs.foldl
    (fun st s =>
      if s = [] || s = ['.'] then st
      else if s = ['.', '.'] then st.dropLast
      else st ++ [s]) []

/-- Render an absolute path from its normalised segments. -/
def renderAbs : List Str → Str
  | [] => ['/']
  | [s] => '/' :: s
  | s :: rest => '/' :: s ++ renderAbs rest

/-- Is the path absolute (starts with `/`)? -/
def isAbs : Str → Bool
  | '/' :: _ => true
  | _ => false

/-- Node `path.posix.resolve(base, p)` with the process cwd modelled as
`/`: take the right-most absolute starting point, join, normalise. -/
def pathResolve (base p : Str) : Str :=
  let combined :=
    if isAbs p then p
    else if isAbs base then base ++ '/' :: p
    else '/' :: (base ++ '/' :: p)
  renderAbs (normSegs (splitSlash combined))

/-- Node `path.posix.basename`: last segment after stripping trailing
slashes. -/
def pathBasename (p : Str) : Str :=
  (((p.reverse).dropWhile (· = '/')).takeWhile (· ≠ '/')).reverse

/-- Node `path.posix.dirname`: everything before the last segment
(after stripping trailing slashes), with the root special cases. -/
def pathDirname (p : Str) : Str :=
  let r := p.reverse
  let r1 := r.dropWhile (· = '/')
  let r2 := r1.dropWhile (· ≠ '/')
  let res := (match r2 with
    | '/' :: rest => rest
    | other => other).reverse
  if res = [] then (if isAbs p then ['/'] else ['.'])
  else if isAbs p ∧ res = ['/'] then ['/', '/']
  else res

/-! ### Pattern matchers

Each definition embeds one of the JavaScript regular expressions of the
log parser.  Greedy subpatterns whose backtracking can never succeed
with a shorter match (a maximal `\d+`/`\s+`/`\S+` run followed by a
character the class cannot match) are translated as maximal runs;
subpatterns whose backtracking is observable (`.+` before a literal,
optional groups) are translated by scanning candidate split points in
the same order the regex engine tries them. -/

/-- Candidate split points in decreasing order: `n-1, …, 0`. -/
def descRange (n : Nat) : List Nat := (List.range n).map (fun k => n - 1 - k)

/-- `FATAL_ERROR_PATTERN = /^! (.+)$/`; returns the capture. -/
def matchFatal (l : Str) : Option Str :=
  match l with
  | '!' :: ' ' :: rest =>
    if rest ≠ [] ∧ rest.all jsDot then some rest else none
  | _ => none

/-- `LINE_CONTEXT_PATTERN = /^l\.(\d+)\s(.*)$/`; returns the line
number and the context capture. -/
def matchLineContext (l : Str) : Option (Nat × Str) :=
  match l with
  | 'l' :: '.' :: rest =>
    let ds := rest.takeWhile isDigitChar
    if ds = [] then none
    else
      match rest.drop ds.length with
      | c :: tail =>
        if isWsChar c ∧ tail.all jsDot then some (parseNatDigits ds, tail)
        else none
      | [] => none
  | _ => none

/-- One candidate split for `FILE_LINE_ERROR_PATTERN` with the first
capture of length `k`. -/
def fileLineAt (l : Str) (k : Nat) : Option (Str × Nat × Str) :=
  let p := l.take k
  let s := l.drop k
  if 5 ≤ k ∧ (S ".tex").isSuffixOf p ∧ p.all jsDot then
    match s with
    | ':' :: rest =>
      let ds := rest.takeWhile isDigitChar
      if ds = [] then none
      else
        match rest.drop ds.length with
        | ':' :: ' ' :: msg =>
          if msg ≠ [] ∧ msg.all jsDot then some (p, parseNatDigits ds, msg)
          else none
        | _ => none
    | _ => none
  else none

/-- `FILE_LINE_ERROR_PATTERN = /^(.+\.tex):(\d+): (.+)$/`; the greedy
`.+` is translated by trying the longest first capture first. -/
def matchFileLine (l : Str) : Option (Str × Nat × Str) :=
  (descRange (l.length + 1)).findSome? (fileLineAt l)

/-- The tail `(.*)\s\(.*\)\.$` of `OUTPUT_PATTERN`; returns the first
capture, chosen greedily (longest first). -/
def outputTail (r : Str) : Option Str :=
  let n := r.length
  if 4 ≤ n ∧ r.getD (n - 2) ' ' = ')' ∧ r.getD (n - 1) ' ' = '.' then
    (descRange (n - 3)).findSome? (fun j =>
      if isWsChar (r.getD j ' ') ∧ r.getD (j + 1) ' ' = '(' ∧
          (r.take j).all jsDot ∧ ((r.drop (j + 2)).take (n - 2 - (j + 2))).all jsDot
      then some (r.take j) else none)
  else none

/-- Exactly one whitespace character (`\s`). -/
def dropWs1 : Str → Option Str
  | c :: r => if isWsChar c then some r else none
  | [] => none

/-- `OUTPUT_PATTERN = /^Output\swritten\son\s(.*)\s\(.*\)\.$/`. -/
def matchOutput (l : Str) : Option Str := do
  let r0 ← dropLit (S "Output") l
  let r1 ← dropWs1 r0
  let r2 ← dropLit (S "written") r1
  let r3 ← dropWs1 r2
  let r4 ← dropLit (S "on") r3
  let r5 ← dropWs1 r4
  outputTail r5

/-- The first capture of `BOX_PATTERN` for one of the `Over`/`Under`
alternatives: `((?:Over|Under)full \\[hvd]box \([^)]*\))` followed by
the literal space; returns the capture and the remainder after the
space. -/
def boxPrefixWith (w : Str) (l : Str) : Option (Str × Str) :=
  match dropLit w l with
  | none => none
  | some r1 =>
    match r1 with
    | '\\' :: x :: r2 =>
      if x = 'h' ∨ x = 'v' ∨ x = 'd' then
        match dropLit (S "box (") r2 with
        | none => none
        | some r3 =>
          let inner := r3.takeWhile (· ≠ ')')
          (match r3.drop inner.length with
           | ')' :: ' ' :: r4 =>
             some (w ++ '\\' :: x :: S "box (" ++ inner ++ [')'], r4)
           | _ => none)
      else none
    | _ => none

/-- The first capture of `BOX_PATTERN` (both alternatives). -/
def boxPrefix (l : Str) : Option (Str × Str) :=
  boxPrefixWith (S "Overfull ") l <|> boxPrefixWith (S "Underfull ") l

/-- The tail `at lines? (\d+)(?:--(\d+))?` of `BOX_PATTERN`: `s?` is
tried greedily; the optional `--M` group contributes only when both
dashes and at least one digit follow. -/
def boxAt (s : Str) : Option (Nat × Option Nat) :=
  match dropLit (S "at line") s with
  | none => none
  | some s1 =>
    let tryNum : Str → Option (Nat × Option Nat) := fun u =>
      match u with
      | ' ' :: v =>
        let ds := v.takeWhile isDigitChar
        if ds = [] then none
        else
          let rest := v.drop ds.length
          let mo := match rest with
            | '-' :: '-' :: w =>
              let ds2 := w.takeWhile isDigitChar
              if ds2 = [] then none else some (parseNatDigits ds2)
            | _ => none
          some (parseNatDigits ds, mo)
      | _ => none
    (match s1 with
     | 's' :: t => tryNum t
     | _ => none) <|> tryNum s1

/-- `BOX_PATTERN` (no end anchor): first capture, start line, optional
end line.  The optional `(?:in paragraph |in alignment )?` group tries
its alternatives, then the empty match. -/
def matchBox (l : Str) : Option (Str × Nat × Option Nat) :=
  match boxPrefix l with
  | none => none
  | some (g1, r) =>
    match ((dropLit (S "in paragraph ") r).bind boxAt) <|>
          ((dropLit (S "in alignment ") r).bind boxAt) <|> boxAt r with
    | some (n, mo) => some (g1, n, mo)
    | none => none

/-- The leading alternation `(LaTeX|Package|Class)` of the warning and
info patterns. -/
def originSplit (l : Str) : Option (Str × Str) :=
  match dropLit (S "LaTeX") l with
  | some r => some (S "LaTeX", r)
  | none =>
    match dropLit (S "Package") l with
    | some r => some (S "Package", r)
    | none => (dropLit (S "Class") l).map (fun r => (S "Class", r))

/-- `WARNING_PATTERN = /^(LaTeX|Package|Class)(?:\s+(\S+))?\s+Warning:\s*(.*)$/`
and the identical `INFO_PATTERN` with keyword `Info:`.  The optional
package group is tried first (greedy `?`); within it every greedy run
is forced maximal because backtracking it puts an impossible character
under the next subpattern.  Returns origin, optional package name and
message capture. -/
def matchWI (kw : Str) (l : Str) : Option (Str × Option Str × Str) :=
  match originSplit l with
  | none => none
  | some (origin, r) =>
    let tail : Str → Option Str := fun s =>
      let m := s.dropWhile isWsChar
      if m.all jsDot then some m else none
    let withPkg : Option (Option Str × Str) :=
      let w1 := r.takeWhile isWsChar
      if w1 = [] then none
      else
        let r1 := r.drop w1.length
        let tok := r1.takeWhile (fun c => !(isWsChar c))
        if tok = [] then none
        else
          let r2 := r1.drop tok.length
          let w2 := r2.takeWhile isWsChar
          if w2 = [] then none
          else
            match dropLit kw (r2.drop w2.length) with
            | some rest => (tail rest).map (fun m => (some tok, m))
            | none => none
    let noPkg : Option (Option Str × Str) :=
      let w := r.takeWhile isWsChar
      if w = [] then none
      else
        match dropLit kw (r.drop w.length) with
        | some rest => (tail rest).map (fun m => (none, m))
        | none => none
    match withPkg <|> noPkg with
    | some (pkg, msg) => some (origin, pkg, msg)
    | none => none

/-- `INPUT_LINE_PATTERN = /on input line (\d+)/` at one position. -/
def tryInputLineAt (s : Str) : Option Nat := do
  let r ← dropLit (S "on input line ") s
  let ds := r.takeWhile isDigitChar
  if ds = [] then none else some (parseNatDigits ds)

/-- `INPUT_LINE_PATTERN` searched left to right (first match wins). -/
def inputLineNumber : Str → Option Nat
  | [] => none
  | c :: rest =>
    match tryInputLineAt (c :: rest) with
    | some n => some n
    | none => inputLineNumber rest

/-- `/line\s+\d+$/.test(s)`: does `s` end in `line`, whitespace,
digits? -/
def endsWithLineNum (s : Str) : Bool :=
  let r := s.reverse
  let d := r.takeWhile isDigitChar
  if d = [] then false
  else
    let r1 := r.drop d.length
    let w := r1.takeWhile isWsChar
    if w = [] then false else (S "enil").isPrefixOf (r1.drop w.length)

/-- `/^\d+/.test(line)`. -/
def headDigit : Str → Bool
  | c :: _ => isDigitChar c
  | [] => false

/-- Captures of `/^(\d+\.?)\s*(.*)/`: the digit run with an optional
trailing period, and the rest of the line after skipping whitespace
(cut at the first character `.` cannot match). -/
def digitWrapParts (line : Str) : Str × Str :=
  let ds := line.takeWhile isDigitChar
  let r := line.drop ds.length
  let (g1, r1) := match r with
    | '.' :: t => (ds ++ ['.'], t)
    | _ => (ds, r)
  (g1, (r1.dropWhile isWsChar).takeWhile jsDot)

/-- `/^(\s{15,})(.+)$/` generalised over the minimal run length: the
second capture for the longest first capture that leaves a nonempty
all-dot remainder (`minWs = 15`), also used for the package
continuation tail `\s+(.+)$` (`minWs = 1`). -/
def tailCapture (minWs : Nat) (line : Str) : Option Str :=
  let w := (line.takeWhile isWsChar).length
  if w < minWs then none
  else
    let hi := min w (line.length - 1)
    ((List.range (hi + 1 - minWs)).map (fun k => hi - k)).findSome?
      (fun j =>
        let suf := line.drop j
        if suf ≠ [] ∧ suf.all jsDot then some suf else none)

/-- The package continuation pattern
`new RegExp("^\\(" + packageName + "\\)\\s+(.+)$")`, for package names
without regex metacharacters: for those names the dynamically built
pattern matches the name literally and this definition is its exact
semantics; returns the capture.  The `\S+`-captured name can, however,
contain metacharacters, and then the built pattern changes meaning
(name `|` introduces a top-level alternation whose right branch matches
unanchored) or is invalid (name `)` leaves an unmatched parenthesis and
`new RegExp` throws — see `jsPkgPatternString`/`regexParensBalanced`).
Theorems about package continuations therefore carry a `pkgLiteral`
hypothesis restricting them to metacharacter-free names. -/
def pkgCont (name : Str) (line : Str) : Option Str :=
  (dropLit ('(' :: name ++ [')']) line).bind (tailCapture 1)

/-- Characters excluded by `[^()[\]]`. -/
def notPBr (c : Char) : Bool :=
  !(c = '(' || c = ')' || c = '[' || c = ']')

/-- Global scan of `INPUT_FILE_PATTERN = /(\([^()[\]]+|\))/g`:
left-to-right, non-overlapping; fuel bounds the number of scan steps
(each consumes at least one character, so `line.length` suffices). -/
def fileTokensGo : Nat → Str → List Str
  | 0, _ => []
  | _ + 1, [] => []
  | fuel + 1, c :: rest =>
    if c = ')' then [')'] :: fileTokensGo fuel rest
    else if c = '(' then
      let run := rest.takeWhile notPBr
      if run = [] then fileTokensGo fuel rest
      else ('(' :: run) :: fileTokensGo fuel (rest.drop run.length)
    else fileTokensGo fuel rest

/-- All matches of `INPUT_FILE_PATTERN` in a line. -/
def fileTokens (l : Str) : List Str := fileTokensGo l.length l

/-- `[\s"]` character class of `INPUT_FILE_TRIM_PATTERN`. -/
def isWsQuote (c : Char) : Bool := isWsChar c || c = '"'

/-- `token.replace(INPUT_FILE_TRIM_PATTERN, "")` with
`INPUT_FILE_TRIM_PATTERN = /(^\([\s"]*|[\s"]+$)/g`: strip a leading
`(` together with following whitespace/quotes, and a trailing
whitespace/quote run. -/
def trimToken (t : Str) : Str :=
  let t1 := match t with
    | '(' :: r => r.dropWhile isWsQuote
    | other => other
  (t1.reverse.dropWhile isWsQuote).reverse

/-! ### Diagnostic data model -/

/-- A `{row, column}` point; rows/columns are JavaScript numbers that
hold integers here. -/
structure PosPoint where
  row : Int
  column : Int
deriving DecidableEq, Repr

/-- A `{start, end}` range (`end` is a Lean keyword, hence `endPos`). -/
structure PosRange where
  start : PosPoint
  endPos : PosPoint
deriving DecidableEq, Repr

/-- `location` of a diagnostic. -/
structure Location where
  file : Str
  fullPath : Str
  position : PosRange
deriving DecidableEq, Repr

/-- One diagnostic message as built by the parser. -/
structure Message where
  severity : Str
  excerpt : Str
  context : Option Str := none
  location : Location
  logRange : (Nat × Nat) × (Nat × Nat)
deriving DecidableEq, Repr

/-- `Number.MAX_SAFE_INTEGER`, the sentinel end column. -/
def maxSafe : Int := 9007199254740991

/-- The `lineNumber ? {…} : {…}` position idiom shared by the fatal
error, warning and info builders.  JavaScript `?` treats `0` as falsy,
so a captured line number `0` falls back to the row-0 default. -/
def positionForLine (lineNumber : Option Nat) : PosRange :=
  match lineNumber with
  | some n =>
    if n = 0 then ⟨⟨0, 0⟩, ⟨0, maxSafe⟩⟩
    else ⟨⟨(n : Int) - 1, 0⟩, ⟨(n : Int) - 1, maxSafe⟩⟩
  | none => ⟨⟨0, 0⟩, ⟨0, maxSafe⟩⟩

/-- `getCurrentFile()`: top of the file stack, else the root file. -/
def getCurrentFile (sourcePaths : List Str) (texFilePath : Str) : Str :=
  match sourcePaths with
  | [] => texFilePath
  | f :: _ => f

/-! ### Multi-line message collection -/

/-- `/^(!|LaTeX|Package|Class|Output|Over|Under)/`. -/
def startsNewMessage (line : Str) : Bool :=
  [S "!", S "LaTeX", S "Package", S "Class", S "Output", S "Over",
   S "Under"].any (fun p => p.isPrefixOf line)

/-- `/^\s*<.*>$/` (bracket-delimited context lines skipped inside a
fatal error). -/
def isAngleLine (line : Str) : Bool :=
  match line.dropWhile isWsChar with
  | '<' :: rest =>
    (match rest.reverse with
     | '>' :: midRev => midRev.all jsDot
     | _ => false)
  | _ => false

/-- `/^\s*\.\.\.$/` (ellipsis marker lines skipped inside a fatal
error). -/
def isEllipsisLine (line : Str) : Bool :=
  line.dropWhile isWsChar = S "..."

/-- Continuation loop of `parseFatalError`: returns the accumulated
text, the `l.<N>` capture if found, the context capture, and the number
of lines consumed. -/
def fatalCollect : List Str → Str → Str × Option Nat × Str × Nat
  | [], acc => (acc, none, [], 0)
  | line :: rest, acc =>
    match matchLineContext line with
    | some (n, ctx) => (acc, some n, ctx, 1)
    | none =>
      if startsNewMessage line ∨ (matchFileLine line).isSome ∨ line = [] then
        (acc, none, [], 0)
      else
        let acc' :=
          if jsTrim line ≠ [] ∧ ¬ isAngleLine line ∧ ¬ isEllipsisLine line then
            acc ++ ' ' :: jsTrim line
          else acc
        let r := fatalCollect rest acc'
        (r.1, r.2.1, r.2.2.1, r.2.2.2 + 1)

/-- `parseFatalError`: message and `nextIndex`. -/
def parseFatalError (texFilePath : Str) (sourcePaths : List Str)
    (lines : List Str) (lineIndex : Nat) (captured : Str) : Message × Nat :=
  let r := fatalCollect (lines.drop (lineIndex + 1)) captured
  let lineNumber := r.2.1
  let sourceContext := r.2.2.1
  let nextIndex := lineIndex + 1 + r.2.2.2
  let cleaned := jsTrim (collapseWs r.1)
  let cur := getCurrentFile sourcePaths texFilePath
  ({ severity := S "error"
     excerpt := cleaned
     -- `context: sourceContext || undefined` (empty string is falsy)
     context := if sourceContext = [] then none else some sourceContext
     location := { file := pathBasename cur, fullPath := cur,
                   position := positionForLine lineNumber }
     logRange := ((lineIndex, 0),
                  (nextIndex - 1, (lines.getD (nextIndex - 1) []).length)) },
   nextIndex)

/-- Continuation loop of `parseFileLineError`: accumulated text and
lines consumed. -/
def fileLineCollect : List Str → Str → Str × Nat
  | [], acc => (acc, 0)
  | line :: rest, acc =>
    if line = [] ∨ startsNewMessage line ∨ (matchFileLine line).isSome then
      (acc, 0)
    else
      match matchLineContext line with
      | some _ => (acc, 1)
      | none =>
        match line with
        | c :: _ =>
          if isWsChar c ∧ jsTrim line ≠ [] then
            let r := fileLineCollect rest (acc ++ ' ' :: jsTrim line)
            (r.1, r.2 + 1)
          else (acc, 0)
        | [] => (acc, 0)

/-- `/^(The |This |You |See |Type |That makes )/` (compiler help text,
suppressed entirely). -/
def helpTextStart (t : Str) : Bool :=
  [S "The ", S "This ", S "You ", S "See ", S "Type ",
   S "That makes "].any (fun p => p.isPrefixOf t)

/-- `parseFileLineError`: optional message (help text is suppressed)
and `nextIndex`.  The row is `lineNumber - 1` with no zero guard (the
source has none here). -/
def parseFileLineError (projectPath : Str) (lines : List Str)
    (lineIndex : Nat) (filePath : Str) (lineNumber : Nat) (captured : Str) :
    Option Message × Nat :=
  let r := fileLineCollect (lines.drop (lineIndex + 1)) captured
  let nextIndex := lineIndex + 1 + r.2
  if helpTextStart r.1 then (none, nextIndex)
  else
    let cleaned := jsTrim (collapseWs r.1)
    let resolvedPath := pathResolve projectPath filePath
    (some { severity := S "error", excerpt := cleaned,
            location := { file := pathBasename resolvedPath,
                          fullPath := resolvedPath,
                          position := ⟨⟨(lineNumber : Int) - 1, 0⟩,
                                       ⟨(lineNumber : Int) - 1, maxSafe⟩⟩ },
            logRange := ((lineIndex, 0),
                         (nextIndex - 1, (lines.getD (nextIndex - 1) []).length)) },
     nextIndex)

/-- `parseBoxWarning`: `endLine` defaults to `startLine` when the
`--M` capture is absent; rows are the captured numbers minus one. -/
def parseBoxWarning (texFilePath : Str) (sourcePaths : List Str)
    (lineIndex : Nat) (text : Str) (startLine : Nat)
    (endLineOpt : Option Nat) : Message :=
  let endLine := endLineOpt.getD startLine
  let cur := getCurrentFile sourcePaths texFilePath
  { severity := S "info", excerpt := text,
    location := { file := pathBasename cur, fullPath := cur,
                  position := ⟨⟨(startLine : Int) - 1, 0⟩,
                               ⟨(endLine : Int) - 1, maxSafe⟩⟩ },
    logRange := ((lineIndex, 0), (lineIndex, 0)) }

/-- One collected continuation chunk (`{ text, noSpace }`). -/
structure CollPart where
  text : Str
  noSpace : Bool
deriving DecidableEq, Repr

/-- One iteration of `collectContinuationLines`: the chunks pushed for
this line and the new `prevText`, or `none` when collection stops.
Branch order follows the source: 15-space continuation, package
continuation, then the wrapped-number heuristic (which tests
`prevText`, the most recently collected chunk). -/
def contStep (pkg : Option Str) (prevText : Str) (line : Str) :
    Option (List CollPart × Str) :=
  match tailCapture 15 line with
  | some t => some ([⟨jsTrim t, false⟩], jsTrim t)
  | none =>
    let wrap : Option (List CollPart × Str) :=
      if endsWithLineNum prevText ∧ headDigit line then
        let parts := digitWrapParts line
        some (⟨parts.1, true⟩ ::
              (if parts.2 ≠ [] then [⟨jsTrim parts.2, false⟩] else []),
          line)
      else none
    match pkg with
    | some name =>
      match pkgCont name line with
      | some t => some ([⟨jsTrim t, false⟩], jsTrim t)
      | none => wrap
    | none => wrap

/-- The collection loop: collected chunks and number of lines
consumed. -/
def collectGo (pkg : Option Str) : List Str → Str → List CollPart × Nat
  | [], _ => ([], 0)
  | line :: rest, prevText =>
    match contStep pkg prevText line with
    | some (parts, newPrev) =>
      let r := collectGo pkg rest newPrev
      (parts ++ r.1, r.2 + 1)
    | none => ([], 0)

/-- Join collected chunks, inserting a space unless the chunk is marked
`noSpace` or the result is still empty. -/
def joinParts (ps : List CollPart) : Str :=
  ps.foldl
    (fun r p => if p.noSpace ∨ r = [] then r ++ p.text else r ++ ' ' :: p.text)
    []

/-- `collectContinuationLines(lines, startIndex, packageName,
initialText)`: joined text and `nextIndex`. -/
def collectContinuationLines (lines : List Str) (startIndex : Nat)
    (pkg : Option Str) (initialText : Str) : Str × Nat :=
  let r := collectGo pkg (lines.drop startIndex) initialText
  (joinParts r.1, startIndex + r.2)

/-- The final message text of `parseWarning`/`parseInfo`: append the
continuation (without a space when it completes a wrapped line number),
collapse whitespace, trim. -/
def wiMessageText (initial contText : Str) : Str :=
  jsTrim (collapseWs (
    if contText = [] then initial
    else if endsWithLineNum initial ∧ headDigit contText then
      initial ++ contText
    else initial ++ ' ' :: contText))

/-- `originText`: origin plus package name when present. -/
def originTextOf (origin : Str) (pkg : Option Str) : Str :=
  match pkg with
  | some name => origin ++ ' ' :: name
  | none => origin

/-- `parseWarning` and `parseInfo` (identical up to the severity and
the matched keyword): message and `nextIndex`. -/
def parseWI (severity : Str) (texFilePath : Str) (sourcePaths : List Str)
    (lines : List Str) (lineIndex : Nat) (origin : Str) (pkg : Option Str)
    (captured : Str) : Message × Nat :=
  let cont := collectContinuationLines lines (lineIndex + 1) pkg captured
  let nextIndex := cont.2
  let messageText := wiMessageText captured cont.1
  let lineNumber := inputLineNumber messageText
  let originText := originTextOf origin pkg
  let excerpt :=
    if originText ≠ S "LaTeX" then originText ++ ':' :: ' ' :: messageText
    else messageText
  let cur := getCurrentFile sourcePaths texFilePath
  ({ severity := severity, excerpt := excerpt,
     location := { file := pathBasename cur, fullPath := cur,
                   position := positionForLine lineNumber },
     logRange := ((lineIndex, 0),
                  (nextIndex - 1, (lines.getD (nextIndex - 1) []).length)) },
   nextIndex)

/-- `updateFileStack`: fold the line's parenthesis tokens over the
stack; `)` pops only above length 1, a path-looking token is resolved
and pushed. -/
def updateFileStack (projectPath : Str) (sourcePaths : List Str)
    (line : Str) : List Str :=
  (fileTokens line).foldl
    (fun sp token =>
      if token = [')'] then
        if sp.length > 1 then sp.tail else sp
      else
        let cleanPath := trimToken token
        if cleanPath.contains '.' then
          pathResolve projectPath cleanPath :: sp
        else sp)
    sourcePaths

/-! ### The parser state machine -/

/-- The parser's mutable state during one `parse` call. -/
structure ParserState where
  messages : List Message
  sourcePaths : List Str
  outputFilePath : Option Str
  lastMessage : Option Message
deriving DecidableEq, Repr

/-- `addMessage`: drop the new message when it matches the previously
emitted one on (fullPath, start row, excerpt); otherwise append it and
remember it. -/
def addMessage (st : ParserState) (m : Message) : ParserState :=
  match st.lastMessage with
  | some l =>
    if l.location.fullPath = m.location.fullPath ∧
        l.location.position.start.row = m.location.position.start.row ∧
        l.excerpt = m.excerpt then st
    else { st with messages := st.messages ++ [m], lastMessage := some m }
  | none => { st with messages := st.messages ++ [m], lastMessage := some m }

/-- The main `while` loop of `parse`.  `lineIndex` strictly increases
every iteration, so `lines.length + 1` fuel always suffices; the
recognisers are tried in source order (output marker, fatal error,
file:line error, box warning, warning, info, file-stack fallback), and
line 0 is always skipped. -/
def parseGo (texFilePath projectPath : Str) (lines : List Str) :
    Nat → Nat → ParserState → ParserState
  | 0, _, st => st
  | fuel + 1, lineIndex, st =>
    if lineIndex < lines.length then
      let line := lines.getD lineIndex []
      if lineIndex = 0 then
        parseGo texFilePath projectPath lines fuel (lineIndex + 1) st
      else
        match matchOutput line with
        | some fp =>
          let out := pathResolve projectPath (fp.filter (· ≠ '"'))
          parseGo texFilePath projectPath lines fuel (lineIndex + 1)
            { st with outputFilePath := some out }
        | none =>
        match matchFatal line with
        | some cap =>
          let r := parseFatalError texFilePath st.sourcePaths lines lineIndex cap
          parseGo texFilePath projectPath lines fuel r.2 (addMessage st r.1)
        | none =>
        match matchFileLine line with
        | some (fp, n, cap) =>
          let r := parseFileLineError projectPath lines lineIndex fp n cap
          parseGo texFilePath projectPath lines fuel r.2
            (match r.1 with
             | some m => addMessage st m
             | none => st)
        | none =>
        match matchBox line with
        | some (g1, n, mo) =>
          parseGo texFilePath projectPath lines fuel (lineIndex + 1)
            (addMessage st (parseBoxWarning texFilePath st.sourcePaths lineIndex g1 n mo))
        | none =>
        match matchWI (S "Warning:") line with
        | some (origin, pkg, cap) =>
          let r := parseWI (S "warning") texFilePath st.sourcePaths lines
            lineIndex origin pkg cap
          parseGo texFilePath projectPath lines fuel r.2 (addMessage st r.1)
        | none =>
        match matchWI (S "Info:") line with
        | some (origin, pkg, cap) =>
          let r := parseWI (S "info") texFilePath st.sourcePaths lines
            lineIndex origin pkg cap
          parseGo texFilePath projectPath lines fuel r.2 (addMessage st r.1)
        | none =>
          parseGo texFilePath projectPath lines fuel (lineIndex + 1)
            { st with sourcePaths :=
                updateFileStack projectPath st.sourcePaths line }
    else st

/-- The state every `parse` call starts from. -/
def initState (texFilePath : Str) : ParserState :=
  { messages := [], sourcePaths := [texFilePath], outputFilePath := none,
    lastMessage := none }

/-- `parse(logContent, texFilePath)` up to its final state. -/
def parseRun (logContent texFilePath : Str) : ParserState :=
  let lines := splitLines logContent
  parseGo texFilePath (pathDirname texFilePath) lines (lines.length + 1) 0
    (initState texFilePath)

/-- `parse(logContent, texFilePath)`: the ordered diagnostic list. -/
def parse (logContent texFilePath : Str) : List Message :=
  (parseRun logContent texFilePath).messages

/-! ### BuildService

The per-file build registry (`buildingFiles : Map`), its lifecycle
transitions and queries, and the public `compile` entry point.
Timestamps (`Date.now()`) are passed in explicitly; emitted events are
recorded in an event trace. -/

/-- One value of the `buildingFiles` map.  Each transition stores a
fresh object literal, so fields it does not mention are absent
(`none`). -/
structure FileRecord where
  status : Str
  startTime : Option Nat := none
  endTime : Option Nat := none
  error : Option Str := none
deriving DecidableEq, Repr

/-- The `buildingFiles` map, insertion-ordered like a JavaScript
`Map`. -/
abbrev Registry := List (Str × FileRecord)

/-- `Map.prototype.get`. -/
def mapGet (reg : Registry) (k : Str) : Option FileRecord :=
  (reg.find? (fun e => decide (e.1 = k))).map (·.2)

/-- `Map.prototype.set`: overwrite in place, else append. -/
def mapSet (reg : Registry) (k : Str) (v : FileRecord) : Registry :=
  if (reg.find? (fun e => decide (e.1 = k))).isSome then
    reg.map (fun e => if e.1 = k then (k, v) else e)
  else reg ++ [(k, v)]

/-- `Map.prototype.delete`. -/
def mapDelete (reg : Registry) (k : Str) : Registry :=
  reg.filter (fun e => decide (e.1 ≠ k))

/-- Events published through the emitter. -/
inductive BuildEvent
  | didStartBuild (file : Str)
  | didFinishBuild (file : Str) (output : Str) (elapsedTime : Option Nat)
  | didFailBuild (file : Str) (error : Str) (output : Str)
  | didChangeBuildStatus (status : Str) (file : Option Str)
      (error : Option Str)
deriving DecidableEq, Repr

/-- The service's state: the registry plus the published-event
trace. -/
structure ServiceState where
  buildingFiles : Registry
  events : List BuildEvent
deriving DecidableEq, Repr

/-- A fresh service. -/
def emptyService : ServiceState := { buildingFiles := [], events := [] }

/-- `startBuild(filePath)` at clock value `now`. -/
def startBuild (st : ServiceState) (filePath : Str) (now : Nat) :
    ServiceState :=
  { buildingFiles := mapSet st.buildingFiles filePath
      { status := S "building", startTime := some now },
    events := st.events ++
      [.didStartBuild filePath,
       .didChangeBuildStatus (S "building") (some filePath) none] }

/-- `finishBuild(filePath, output, elapsedTime)` at clock value `now`:
the stored record holds only `status` and `endTime`. -/
def finishBuild (st : ServiceState) (filePath : Str) (output : Str)
    (elapsedTime : Option Nat) (now : Nat) : ServiceState :=
  { buildingFiles := mapSet st.buildingFiles filePath
      { status := S "success", endTime := some now },
    events := st.events ++
      [.didFinishBuild filePath output elapsedTime,
       .didChangeBuildStatus (S "success") (some filePath) none] }

/-- `failBuild(filePath, error, output)` at clock value `now`. -/
def failBuild (st : ServiceState) (filePath : Str) (error : Str)
    (output : Str) (now : Nat) : ServiceState :=
  { buildingFiles := mapSet st.buildingFiles filePath
      { status := S "error", endTime := some now, error := some error },
    events := st.events ++
      [.didFailBuild filePath error output,
       .didChangeBuildStatus (S "error") (some filePath) (some error)] }

/-- What `getStatus(filePath)` reports for one file. -/
structure StatusReport where
  status : Str
  file : Str
  startTime : Option Nat
  endTime : Option Nat
  error : Option Str
deriving DecidableEq, Repr

/-- `x || null` on an optional number (`0` is falsy). -/
def natOrNull : Option Nat → Option Nat
  | some n => if n = 0 then none else some n
  | none => none

/-- `x || null` on an optional string (`""` is falsy). -/
def strOrNull : Option Str → Option Str
  | some s => if s = [] then none else some s
  | none => none

/-- `getStatus(filePath)` for a given path. -/
def getStatus (reg : Registry) (filePath : Str) : StatusReport :=
  match mapGet reg filePath with
  | some r =>
    { status := r.status, file := filePath,
      startTime := natOrNull r.startTime, endTime := natOrNull r.endTime,
      error := strOrNull r.error }
  | none =>
    { status := S "idle", file := filePath, startTime := none,
      endTime := none, error := none }

/-- `isBuilding(filePath)`. -/
def isBuilding (reg : Registry) (filePath : Str) : Bool :=
  match mapGet reg filePath with
  | some r => r.status = S "building"
  | none => false

/-- `isAnyBuilding()`. -/
def isAnyBuilding (reg : Registry) : Bool :=
  reg.any (fun e => e.2.status = S "building")

/-- `reset(filePath?)`. -/
def reset (st : ServiceState) (filePath : Option Str) : ServiceState :=
  match filePath with
  | some p =>
    { buildingFiles := mapDelete st.buildingFiles p,
      events := st.events ++
        [.didChangeBuildStatus (S "idle") (some p) none] }
  | none =>
    { buildingFiles := [],
      events := st.events ++ [.didChangeBuildStatus (S "idle") none none] }

/-- `compile(filePath)`: `false` without touching anything when the
main module is missing, the path is falsy or not a `.tex` file, or the
file is already building; otherwise it delegates to
`mainModule.runCompilation(filePath)`, which synchronously reaches
`buildService.startBuild(filePath)` (main.js) — modelled as applying
`startBuild` — and returns `true`. -/
def compile (hasMainModule : Bool) (st : ServiceState) (filePath : Str)
    (now : Nat) : Bool × ServiceState :=
  if !hasMainModule then (false, st)
  else if filePath = [] ∨ ¬ (S ".tex").isSuffixOf filePath then (false, st)
  else if isBuilding st.buildingFiles filePath then (false, st)
  else (true, startBuild st filePath now)

/-! ### Predicates used by the statements -/

/-- A line is structural when one of the six recognisers matches it
(output marker, fatal error, file:line error, box warning, warning,
info). -/
def notStructural (l : Str) : Bool :=
  (matchOutput l).isNone && (matchFatal l).isNone &&
  (matchFileLine l).isNone && (matchBox l).isNone &&
  (matchWI (S "Warning:") l).isNone && (matchWI (S "Info:") l).isNone

/-- Excerpts of box-overflow diagnostics start with `Overfull \` or
`Underfull \`. -/
def boxExcerptShape (e : Str) : Bool :=
  (S "Overfull \\").isPrefixOf e || (S "Underfull \\").isPrefixOf e

/-- The position shape every emitted diagnostic has: start column `0`,
end column `Number.MAX_SAFE_INTEGER`, and equal start/end rows unless
the diagnostic is an info-severity box-overflow record (whose rows come
from the `at lines N--M` range). -/
def msgShape (m : Message) : Prop :=
  m.location.position.start.column = 0 ∧
  m.location.position.endPos.column = maxSafe ∧
  (m.location.position.endPos.row = m.location.position.start.row ∨
   (m.severity = S "info" ∧ boxExcerptShape m.excerpt = true))


/-- The raw pattern string the source interpolates the captured
package name into: `"^\\(" + packageName + "\\)\\s+(.+)$"`. -/
def jsPkgPatternString (name : Str) : Str :=
  S "^\\(" ++ name ++ S "\\)\\s+(.+)$"

/-- A sound detector of `new RegExp` syntax errors: scans a pattern
tracking backslash escapes, bracket classes and unescaped parenthesis
depth.  A `false` verdict — a pattern ending inside an escape or a
class, a `)` with no open `(` outside a class, or a dangling `(` —
is a genuine `SyntaxError` in a JavaScript `RegExp`; `true` does not
certify validity. -/
def regexParensGo : Bool → Nat → Str → Bool
  | inClass, d, [] => !inClass && d == 0
  | inClass, d, c :: rest =>
    if c = '\\' then
      match rest with
      | [] => false
      | _ :: rest' => regexParensGo inClass d rest'
    else if inClass then
      if c = ']' then regexParensGo false d rest
      else regexParensGo inClass d rest
    else if c = '[' then regexParensGo true d rest
    else if c = '(' then regexParensGo inClass (d + 1) rest
    else if c = ')' then
      match d with
      | 0 => false
      | d' + 1 => regexParensGo inClass d' rest
    else regexParensGo inClass d rest

/-- Whether a pattern passes the syntax-error detector. -/
def regexParensBalanced (p : Str) : Bool := regexParensGo false 0 p

/-- Characters that denote themselves in a JavaScript regex (outside
classes): everything except `\ ^ $ . | ? * + ( ) [ ]` and the
braces. -/
def regexLiteralChar (c : Char) : Bool :=
  !(c = '\\' || c = '^' || c = '$' || c = '.' || c = '|' || c = '?' ||
    c = '*' || c = '+' || c = '(' || c = ')' || c = '[' || c = ']' ||
    c.toNat = 0x7b || c.toNat = 0x7d)

/-- The captured package name (when present) is free of regex
metacharacters — the domain on which `pkgCont` is the exact semantics
of the dynamically built continuation pattern. -/
def pkgLiteral : Option Str → Bool
  | none => true
  | some name => name.all regexLiteralChar

/-! ## Theorems -/

/-- `Map.set` then `Map.get` of the same key yields the stored value. -/
theorem mapGet_mapSet_self (reg : Registry) (k : Str) (v : FileRecord) :
    mapGet (mapSet reg k v) k = some v := by
  by_cases h : (reg.find? (fun e => decide (e.1 = k))).isSome
  · rw [mapSet, if_pos h]
    induction reg with
    | nil => simp at h
    | cons e rest ih =>
      by_cases he : e.1 = k
      · rw [List.map_cons, if_pos he, mapGet,
          List.find?_cons_of_pos _ (by simp)]
        rfl
      · rw [List.find?_cons_of_neg _ (by simpa using he)] at h
        rw [List.map_cons, if_neg he, mapGet,
          List.find?_cons_of_neg _ (by simpa using he)]
        rw [mapGet] at ih
        exact ih h
  · rw [mapSet, if_neg h]
    rw [Option.not_isSome_iff_eq_none] at h
    induction reg with
    | nil => rw [List.nil_append, mapGet, List.find?_cons_of_pos _ (by simp)]; rfl
    | cons e rest ih =>
      by_cases he : e.1 = k
      · rw [List.find?_cons_of_pos _ (by simpa using he)] at h
        exact absurd h (by simp)
      · rw [List.find?_cons_of_neg _ (by simpa using he)] at h
        rw [List.cons_append, mapGet,
          List.find?_cons_of_neg _ (by simpa using he)]
        rw [mapGet] at ih
        exact ih h

/-- C1 (amended): for every path `p`, after `startBuild(p)` then
`finishBuild(p, output, t)`, the record for `p` is replaced:
`getStatus(p)` reports status `success` with the finish timestamp as
`endTime` (reported `null` only for clock value 0, a JavaScript
falsiness artefact), but `startTime` is reported `null` — `finishBuild`
stores a fresh record that does not carry over the start timestamp
`startBuild` recorded (which `getStatus` reported before the finish, as
the second conjunct shows). -/
theorem c1_finishBuild_replaces_record (st : ServiceState) (p : Str)
    (t1 : Nat) (out : Str) (et : Option Nat) (t2 : Nat) :
    getStatus ((finishBuild (startBuild st p t1) p out et t2).buildingFiles) p =
      { status := S "success", file := p, startTime := none,
        endTime := if t2 = 0 then none else some t2, error := none } ∧
    (getStatus ((startBuild st p t1).buildingFiles) p).startTime =
      (if t1 = 0 then none else some t1) := by
  constructor
  · unfold finishBuild getStatus
    simp only [mapGet_mapSet_self]
    simp [natOrNull, strOrNull]
  · unfold startBuild getStatus
    simp only [mapGet_mapSet_self]
    simp [natOrNull]

/-- C1 counterexample: at the concrete run `startBuild("/p/a.tex")` at
time 100 followed by `finishBuild` at time 250, `getStatus` reports
status `success` and `endTime` 250 but `startTime` `null` — not the
non-null start timestamp the claim asserts is still reported. -/
theorem c1_startTime_lost_cex :
    getStatus ((finishBuild (startBuild emptyService (S "/p/a.tex") 100)
        (S "/p/a.tex") (S "ok") (some 1500) 250).buildingFiles) (S "/p/a.tex") =
      { status := S "success", file := S "/p/a.tex", startTime := none,
        endTime := some 250, error := none } ∧
    (getStatus ((finishBuild (startBuild emptyService (S "/p/a.tex") 100)
        (S "/p/a.tex") (S "ok") (some 1500) 250).buildingFiles)
        (S "/p/a.tex")).startTime ≠ some 100 := by
  exact ⟨by decide, by decide⟩

/-- C10: for every path `p` whose current record has status
`building`, the public `compile(p)` returns `false` and leaves the
service state — in particular every per-file record — unchanged, no
matter whether the main module is wired up: the no-duplicate-start
policy is enforced by the service's own entry point. -/
theorem c10_compile_busy_no_op (hasMain : Bool) (st : ServiceState)
    (p : Str) (now : Nat) (r : FileRecord)
    (hget : mapGet st.buildingFiles p = some r)
    (hb : r.status = S "building") :
    compile hasMain st p now = (false, st) := by
  have hbuild : isBuilding st.buildingFiles p = true := by
    unfold isBuilding
    rw [hget]
    simp [hb]
  unfold compile
  cases hasMain with
  | false => simp
  | true => simp [hbuild]

/-- Witness for C10 at a concrete record in `building` state. -/
theorem c10_compile_busy_no_op_witness :
    compile true (startBuild emptyService (S "/p/a.tex") 5) (S "/p/a.tex") 7 =
      (false, startBuild emptyService (S "/p/a.tex") 5) :=
  c10_compile_busy_no_op true _ _ 7
    { status := S "building", startTime := some 5 } (by decide) (by decide)

/-- C3: `addMessage` discards the new diagnostic exactly when the
previously emitted diagnostic agrees with it on fullPath, start row and
excerpt (first conjunct, an iff over all states); consequently two
consecutive diagnostics equal on those three fields collapse to one
even when their severities differ — the first wins (second conjunct) —
while two duplicates separated by a different diagnostic are both kept
(third conjunct). -/
theorem c3_dedup_iff_last_triple :
    (∀ (st : ParserState) (m : Message),
       (addMessage st m).messages = st.messages ↔
       (∃ l, st.lastMessage = some l ∧
          l.location.fullPath = m.location.fullPath ∧
          l.location.position.start.row = m.location.position.start.row ∧
          l.excerpt = m.excerpt)) ∧
    ((parse (S "hdr\nLaTeX Warning: foo on input line 5.\nLaTeX Info: foo on input line 5.")
        (S "/proj/main.tex")).map
       (fun m => (m.severity, m.excerpt, m.location.position.start.row)) =
     [(S "warning", S "foo on input line 5.", 4)]) ∧
    ((parse (S "hdr\nLaTeX Warning: aa on input line 5.\nLaTeX Warning: bb on input line 9.\nLaTeX Warning: aa on input line 5.")
        (S "/proj/main.tex")).map
       (fun m => (m.excerpt, m.location.position.start.row)) =
     [(S "aa on input line 5.", 4), (S "bb on input line 9.", 8),
      (S "aa on input line 5.", 4)]) := by
  refine ⟨fun st m => ?_, by decide, by decide⟩
  cases hl : st.lastMessage with
  | none =>
    unfold addMessage
    rw [hl]
    dsimp only
    constructor
    · intro h
      have := congrArg List.length h
      simp at this
    · rintro ⟨l, hsome, -⟩
      exact absurd hsome (by simp)
  | some l =>
    unfold addMessage
    rw [hl]
    dsimp only
    by_cases hc : l.location.fullPath = m.location.fullPath ∧
        l.location.position.start.row = m.location.position.start.row ∧
        l.excerpt = m.excerpt
    · rw [if_pos hc]
      exact iff_of_true rfl ⟨l, rfl, hc.1, hc.2.1, hc.2.2⟩
    · rw [if_neg hc]
      constructor
      · intro h
        have := congrArg List.length h
        simp at this
      · rintro ⟨l', hsome, h1, h2, h3⟩
        cases Option.some.inj hsome
        exact absurd ⟨h1, h2, h3⟩ hc

/-- C6: a log whose second line is `! Undefined control sequence.`
immediately followed by `l.12 \foo` yields one diagnostic of severity
`error` with excerpt `Undefined control sequence.` and start row 11
(the captured 1-based context line number minus one). -/
theorem c6_fatal_error_example :
    (parse (S "hdr\n! Undefined control sequence.\nl.12 \\foo")
        (S "/proj/main.tex")).map
      (fun m => (m.severity, m.excerpt, m.location.position.start.row)) =
    [(S "error", S "Undefined control sequence.", 11)] := by decide

/-- `List.getD` yields the default or a member. -/
theorem getD_default_or_mem {α : Type} (l : List α) (i : Nat) (d : α) :
    l.getD i d = d ∨ l.getD i d ∈ l := by
  induction l generalizing i with
  | nil => left; rfl
  | cons a t ih =>
    cases i with
    | zero => right; exact List.mem_cons_self a t
    | succ j =>
      rcases ih j with h | h
      · left; simpa using h
      · right; simpa using Or.inr h

/-- `addMessage` never touches the file stack. -/
theorem addMessage_sourcePaths (st : ParserState) (m : Message) :
    (addMessage st m).sourcePaths = st.sourcePaths := by
  unfold addMessage
  cases st.lastMessage with
  | none => rfl
  | some l =>
    dsimp only
    split <;> rfl

/-- If no line of the input is structural, the loop adds no
message. -/
theorem parseGo_messages_of_notStructural (tex proj : Str)
    (lines : List Str) (H : ∀ l ∈ lines, notStructural l = true) :
    ∀ fuel idx st, (parseGo tex proj lines fuel idx st).messages = st.messages := by
  intro fuel
  induction fuel with
  | zero => intro idx st; rw [parseGo]
  | succ fuel ih =>
    intro idx st
    have hline : notStructural (lines.getD idx []) = true := by
      rcases getD_default_or_mem lines idx ([] : Str) with h | h
      · rw [h]; decide
      · exact H _ h
    simp only [notStructural, Bool.and_eq_true, Option.isNone_iff_eq_none] at hline
    obtain ⟨⟨⟨⟨⟨h1, h2⟩, h3⟩, h4⟩, h5⟩, h6⟩ := hline
    rw [parseGo]
    split
    · dsimp only
      split
      · exact ih _ _
      · rw [h1, h2, h3, h4, h5, h6]
        exact ih _ _
    · rfl


/-- On any log none of whose lines matches a structural recogniser,
`parse` returns the empty diagnostic list. -/
theorem noStructural_parse_empty (log tex : Str)
    (H : ∀ l ∈ splitLines log, notStructural l = true) :
    parse log tex = [] := by
  unfold parse parseRun
  rw [parseGo_messages_of_notStructural tex (pathDirname tex) (splitLines log) H]
  rfl

/-- The empty-result property at a concrete unstructured log. -/
theorem noStructural_parse_empty_example :
    parse (S "hello\nworld (./a.tex\nmore [") (S "/p/m.tex") = [] :=
  noStructural_parse_empty _ _ (by decide)

/-- C9: evaluation of the code at the failing input
`"x\nPackage ) Warning: msg\ny"`.  Line 1 captures package name `)`
(first conjunct); collecting continuations for line `y`, the 15-space
check fails (second conjunct), so the source reaches
`new RegExp("^\\(" + packageName + "\\)\\s+(.+)$")` (part_009 line
162), and the interpolated pattern fails the syntax detector — an
unmatched `)` — so `new RegExp` throws a `SyntaxError` and `parse`
throws, contradicting the claim's (and the spec's) never-throws
policy; an ordinary name such as `hyperref` passes (last conjunct), so
the throw is specific to the unescaped interpolation. -/
theorem c9_pkg_regex_throw_eval :
    matchWI (S "Warning:") (S "Package ) Warning: msg") =
      some (S "Package", some (S ")"), S "msg") ∧
    tailCapture 15 (S "y") = none ∧
    regexParensBalanced (jsPkgPatternString (S ")")) = false ∧
    regexParensBalanced (jsPkgPatternString (S "hyperref")) = true := by
  exact ⟨by decide, by decide, by decide, by decide⟩

/-- A step of the file-stack fold keeps the stack nonempty. -/
theorem fileStackStep_ne_nil (proj : Str) (sp : List Str) (token : Str)
    (h : sp ≠ []) :
    (if token = [')'] then
       if sp.length > 1 then sp.tail else sp
     else
       let cleanPath := trimToken token
       if cleanPath.contains '.' then pathResolve proj cleanPath :: sp
       else sp) ≠ [] := by
  split
  · split
    · next hlen =>
      apply List.length_pos.mp
      rw [List.length_tail]
      omega
    · exact h
  · dsimp only
    split
    · simp
    · exact h

/-- `updateFileStack` keeps the stack nonempty. -/
theorem updateFileStack_ne_nil (proj : Str) (sp : List Str) (line : Str)
    (h : sp ≠ []) : updateFileStack proj sp line ≠ [] := by
  unfold updateFileStack
  generalize fileTokens line = toks
  induction toks generalizing sp with
  | nil => simpa using h
  | cons t ts ih =>
    rw [List.foldl_cons]
    exact ih _ (fileStackStep_ne_nil proj sp t h)

/-- The parse loop keeps the stack nonempty. -/
theorem parseGo_sourcePaths_ne_nil (tex proj : Str) (lines : List Str) :
    ∀ fuel idx st, st.sourcePaths ≠ [] →
      (parseGo tex proj lines fuel idx st).sourcePaths ≠ [] := by
  intro fuel
  induction fuel with
  | zero => intro idx st h; rw [parseGo]; exact h
  | succ fuel ih =>
    intro idx st h
    rw [parseGo]
    split
    · dsimp only
      split
      · exact ih _ _ h
      · split
        · exact ih _ _ h
        · split
          · exact ih _ _ (by rw [addMessage_sourcePaths]; exact h)
          · split
            · split
              · exact ih _ _ (by rw [addMessage_sourcePaths]; exact h)
              · exact ih _ _ h
            · split
              · exact ih _ _ (by rw [addMessage_sourcePaths]; exact h)
              · split
                · exact ih _ _ (by rw [addMessage_sourcePaths]; exact h)
                · split
                  · exact ih _ _ (by rw [addMessage_sourcePaths]; exact h)
                  · exact ih _ _ (updateFileStack_ne_nil proj st.sourcePaths _ h)
    · exact h

/-- C4: the interpreter's file stack always holds at least one entry:
it starts as `[rootFilePath]`, every `updateFileStack` application (the
only stack mutation; a close-paren pops only above length 1) preserves
nonemptiness, every state the loop reaches from a nonempty stack keeps
it nonempty, the final state's stack is nonempty for every input, and
on a nonempty stack `getCurrentFile` returns its top — a path that is
on the stack, hence always defined. -/
theorem c4_file_stack_invariant :
    (∀ tex : Str, (initState tex).sourcePaths = [tex]) ∧
    (∀ proj sp line, sp ≠ [] → updateFileStack proj sp line ≠ []) ∧
    (∀ tex proj lines fuel idx st, st.sourcePaths ≠ [] →
       (parseGo tex proj lines fuel idx st).sourcePaths ≠ []) ∧
    (∀ log tex, (parseRun log tex).sourcePaths ≠ []) ∧
    (∀ sp tex, sp ≠ [] → getCurrentFile sp tex ∈ sp) := by
  refine ⟨fun tex => rfl, updateFileStack_ne_nil,
    parseGo_sourcePaths_ne_nil, fun log tex => ?_, fun sp tex h => ?_⟩
  · unfold parseRun
    exact parseGo_sourcePaths_ne_nil _ _ _ _ _ _ (by simp [initState])
  · cases sp with
    | nil => exact absurd rfl h
    | cons f rest => exact List.mem_cons_self f rest

/-- Witness for C4 at a concrete stack and an unmatched-close-paren
line. -/
theorem c4_file_stack_invariant_witness :
    updateFileStack (S "/p") [S "/p/m.tex"] (S ")))") ≠ [] :=
  c4_file_stack_invariant.2.1 (S "/p") [S "/p/m.tex"] (S ")))") (by decide)

theorem positionForLine_shape (o : Option Nat) :
    (positionForLine o).start.column = 0 ∧
    (positionForLine o).endPos.column = maxSafe ∧
    (positionForLine o).endPos.row = (positionForLine o).start.row := by
  unfold positionForLine
  cases o with
  | none => exact ⟨rfl, rfl, rfl⟩
  | some n =>
    dsimp only
    split <;> exact ⟨rfl, rfl, rfl⟩

theorem msgShape_parseFatalError (tex : Str) (sp : List Str)
    (lines : List Str) (i : Nat) (cap : Str) :
    msgShape (parseFatalError tex sp lines i cap).1 := by
  unfold parseFatalError msgShape
  dsimp only
  exact ⟨(positionForLine_shape _).1, (positionForLine_shape _).2.1,
    Or.inl (positionForLine_shape _).2.2⟩

theorem msgShape_parseFileLineError (proj : Str) (lines : List Str)
    (i : Nat) (fp : Str) (n : Nat) (cap : Str) (m : Message)
    (h : (parseFileLineError proj lines i fp n cap).1 = some m) :
    msgShape m := by
  unfold parseFileLineError at h
  dsimp only at h
  split at h
  · exact absurd h (by simp)
  · cases Option.some.inj h
    exact ⟨rfl, rfl, Or.inl rfl⟩

theorem msgShape_parseWI (sev tex : Str) (sp : List Str)
    (lines : List Str) (i : Nat) (origin : Str) (pkg : Option Str)
    (cap : Str) : msgShape (parseWI sev tex sp lines i origin pkg cap).1 := by
  unfold parseWI msgShape
  dsimp only
  exact ⟨(positionForLine_shape _).1, (positionForLine_shape _).2.1,
    Or.inl (positionForLine_shape _).2.2⟩

/-- The capture of `boxPrefixWith w` begins with `w` then a
backslash. -/
theorem boxPrefixWith_shape (w l : Str) (p : Str × Str)
    (h : boxPrefixWith w l = some p) :
    ∃ t, p.1 = w ++ '\\' :: t := by
  unfold boxPrefixWith at h
  split at h
  · exact absurd h (by simp)
  · split at h
    · split at h
      · split at h
        · exact absurd h (by simp)
        · dsimp only at h
          split at h
          · cases Option.some.inj h
            exact ⟨_, by rw [List.append_assoc, List.append_assoc,
              List.cons_append]⟩
          · exact absurd h (by simp)
      · exact absurd h (by simp)
    · exact absurd h (by simp)

/-- Box-warning captures start with `Overfull \` or `Underfull \`. -/
theorem matchBox_excerptShape (l g1 : Str) (n : Nat) (mo : Option Nat)
    (h : matchBox l = some (g1, n, mo)) : boxExcerptShape g1 = true := by
  unfold matchBox at h
  cases hb : boxPrefix l with
  | none => rw [hb] at h; exact absurd h (by simp)
  | some p =>
    obtain ⟨pg, pr⟩ := p
    rw [hb] at h
    dsimp only at h
    split at h
    · have h2 := Option.some.inj h
      have hg : pg = g1 := congrArg (fun q => q.1) h2
      subst hg
      unfold boxPrefix at hb
      cases ho : boxPrefixWith (S "Overfull ") l with
      | some q =>
        rw [ho] at hb
        simp only [Option.some_orElse] at hb
        obtain ⟨t, ht⟩ := boxPrefixWith_shape _ _ _ ho
        rw [Option.some.inj hb] at ht
        dsimp only at ht
        have hpre : (S "Overfull \\").isPrefixOf pg = true := by
          rw [List.isPrefixOf_iff_prefix, ht,
            show S "Overfull \\" = S "Overfull " ++ ['\\'] from rfl,
            List.append_cons (S "Overfull ") '\\' t]
          exact List.prefix_append _ _
        simp [boxExcerptShape, hpre]
      | none =>
        rw [ho] at hb
        simp only [Option.none_orElse] at hb
        obtain ⟨t, ht⟩ := boxPrefixWith_shape _ _ _ hb
        dsimp only at ht
        have hpre : (S "Underfull \\").isPrefixOf pg = true := by
          rw [List.isPrefixOf_iff_prefix, ht,
            show S "Underfull \\" = S "Underfull " ++ ['\\'] from rfl,
            List.append_cons (S "Underfull ") '\\' t]
          exact List.prefix_append _ _
        simp [boxExcerptShape, hpre]
    · exact absurd h (by simp)

/-- Box diagnostics with a shaped excerpt satisfy the invariant
shape. -/
theorem msgShape_parseBoxWarning (tex : Str) (sp : List Str) (i : Nat)
    (text : Str) (sl : Nat) (mo : Option Nat)
    (hshape : boxExcerptShape text = true) :
    msgShape (parseBoxWarning tex sp i text sl mo) := by
  unfold parseBoxWarning msgShape
  dsimp only
  exact ⟨rfl, rfl, Or.inr ⟨rfl, hshape⟩⟩

/-- Members of the post-`addMessage` list are old members or the new
message. -/
theorem mem_addMessage (st : ParserState) (m m' : Message)
    (h : m' ∈ (addMessage st m).messages) : m' ∈ st.messages ∨ m' = m := by
  unfold addMessage at h
  cases hl : st.lastMessage with
  | none =>
    rw [hl] at h
    dsimp only at h
    rcases List.mem_append.mp h with h | h
    · exact Or.inl h
    · exact Or.inr (List.mem_singleton.mp h)
  | some l =>
    rw [hl] at h
    dsimp only at h
    split at h
    · exact Or.inl h
    · rcases List.mem_append.mp h with h | h
      · exact Or.inl h
      · exact Or.inr (List.mem_singleton.mp h)

/-- The loop preserves the position-shape invariant over the message
list. -/
theorem parseGo_msgShape (tex proj : Str) (lines : List Str) :
    ∀ fuel idx st, (∀ m ∈ st.messages, msgShape m) →
      ∀ m ∈ (parseGo tex proj lines fuel idx st).messages, msgShape m := by
  intro fuel
  induction fuel with
  | zero => intro idx st hinv; rw [parseGo]; exact hinv
  | succ fuel ih =>
    intro idx st hinv
    rw [parseGo]
    split
    · dsimp only
      split
      · exact ih _ _ hinv
      · split
        · exact ih _ _ hinv
        · split
          · refine ih _ _ (fun m hm => ?_)
            rcases mem_addMessage _ _ _ hm with h | h
            · exact hinv m h
            · exact h ▸ msgShape_parseFatalError _ _ _ _ _
          · split
            · split
              · next m heq =>
                refine ih _ _ (fun m' hm => ?_)
                rcases mem_addMessage _ _ _ hm with h | h
                · exact hinv m' h
                · exact h ▸ msgShape_parseFileLineError _ _ _ _ _ _ _ heq
              · exact ih _ _ hinv
            · split
              · next g1 n mo hbox =>
                refine ih _ _ (fun m hm => ?_)
                rcases mem_addMessage _ _ _ hm with h | h
                · exact hinv m h
                · exact h ▸ msgShape_parseBoxWarning _ _ _ _ _ _
                    (matchBox_excerptShape _ _ _ _ hbox)
              · split
                · refine ih _ _ (fun m hm => ?_)
                  rcases mem_addMessage _ _ _ hm with h | h
                  · exact hinv m h
                  · exact h ▸ msgShape_parseWI _ _ _ _ _ _ _ _
                · split
                  · refine ih _ _ (fun m hm => ?_)
                    rcases mem_addMessage _ _ _ hm with h | h
                    · exact hinv m h
                    · exact h ▸ msgShape_parseWI _ _ _ _ _ _ _ _
                  · exact ih _ _ hinv
    · exact hinv


/-- C5 (amended): every diagnostic `parse` returns has start column 0
and the sentinel end column, and its end row equals its start row
(hence `end >= start`) unless it is an info-severity box-overflow
diagnostic; a box diagnostic built from `at lines N--M` has start row
`N-1` and end row `M-1` (`M` defaulting to `N`), so its end precedes
its start whenever `M < N`. -/
theorem c5_position_shape :
    (∀ log tex m, m ∈ parse log tex → msgShape m) ∧
    (∀ tex sp i g1 n mo,
       (parseBoxWarning tex sp i g1 n mo).location.position.start.row =
         (n : Int) - 1 ∧
       (parseBoxWarning tex sp i g1 n mo).location.position.endPos.row =
         ((mo.getD n : Nat) : Int) - 1) := by
  constructor
  · intro log tex m hm
    unfold parse parseRun at hm
    exact parseGo_msgShape _ _ _ _ _ _ (fun m' hm' => absurd hm' (by simp [initState])) m hm
  · intro tex sp i g1 n mo
    unfold parseBoxWarning
    exact ⟨rfl, rfl⟩

/-- C5 counterexample: the box line `at lines 10--3` produces a
diagnostic whose end position (row 2) precedes its start position
(row 9), refuting `position.end >= position.start` as a universal
invariant. -/
theorem c5_box_end_before_start_cex :
    (parse (S "hdr\nOverfull \\hbox (badness 10000) at lines 10--3")
        (S "/proj/main.tex")).map
      (fun m => (m.location.position.start.row, m.location.position.endPos.row)) =
      [(9, 2)] ∧ (2 : Int) < 9 := ⟨by decide, by decide⟩

/-- Witness for C5 at the spec's own box example (lines 10--12). -/
theorem c5_position_shape_witness :
    msgShape
      { severity := S "info", excerpt := S "Overfull \\hbox (14.2pt too wide)",
        context := none,
        location := { file := S "main.tex", fullPath := S "/proj/main.tex",
                      position := ⟨⟨9, 0⟩, ⟨11, maxSafe⟩⟩ },
        logRange := ((1, 0), (1, 0)) } :=
  c5_position_shape.1
    (S "hdr\nOverfull \\hbox (14.2pt too wide) in paragraph at lines 10--12")
    (S "/proj/main.tex") _ (by decide)

/-- `originText` equals `"LaTeX"` exactly for origin `LaTeX` with no
package name (a package name always contributes a space). -/
theorem originTextOf_eq_LaTeX_iff (origin : Str) (pkg : Option Str) :
    originTextOf origin pkg = S "LaTeX" ↔ (origin = S "LaTeX" ∧ pkg = none) := by
  cases pkg with
  | none => simp [originTextOf]
  | some name =>
    simp only [originTextOf]
    constructor
    · intro h
      have hmem : ' ' ∈ origin ++ ' ' :: name :=
        List.mem_append.mpr (Or.inr (List.mem_cons_self _ _))
      rw [h] at hmem
      exact absurd hmem (by decide)
    · rintro ⟨-, h⟩
      exact absurd h (by simp)

/-- C7 (amended): a matched warning produces a `warning`-severity
diagnostic whose excerpt is the whitespace-normalised message text,
prefixed with `<originText>: ` unless the origin is exactly `LaTeX`
with no package name; its start row is `N-1` when the final text
captures `on input line N` with `N >= 1`, and row 0 when no line number
is captured or when `N = 0` (JavaScript's `lineNumber ?` treats 0 as
falsy, so the claimed `N-1 = -1` does not occur); the spec's Example 4
behaves as claimed. -/
theorem c7_warning_excerpt_and_row :
    (∀ tex sp lines i origin pkg cap,
       (parseWI (S "warning") tex sp lines i origin pkg cap).1.severity =
         S "warning") ∧
    (∀ tex sp lines i origin pkg cap,
       (parseWI (S "warning") tex sp lines i origin pkg cap).1.excerpt =
         (if origin = S "LaTeX" ∧ pkg = none then
            wiMessageText cap (collectContinuationLines lines (i + 1) pkg cap).1
          else originTextOf origin pkg ++ ':' :: ' ' ::
            wiMessageText cap (collectContinuationLines lines (i + 1) pkg cap).1)) ∧
    (∀ tex sp lines i origin pkg cap n,
       inputLineNumber
           (wiMessageText cap (collectContinuationLines lines (i + 1) pkg cap).1) =
         some n → n ≠ 0 →
       (parseWI (S "warning") tex sp lines i origin pkg cap).1.location.position.start.row =
         (n : Int) - 1) ∧
    (∀ tex sp lines i origin pkg cap,
       inputLineNumber
           (wiMessageText cap (collectContinuationLines lines (i + 1) pkg cap).1) =
           some 0 ∨
       inputLineNumber
           (wiMessageText cap (collectContinuationLines lines (i + 1) pkg cap).1) =
           none →
       (parseWI (S "warning") tex sp lines i origin pkg cap).1.location.position.start.row =
         0) ∧
    ((parse (S "hdr\nLaTeX Warning: Reference 'fig:x' on page 1 undefined on input line 42.")
        (S "/proj/main.tex")).map
       (fun m => (m.severity, m.excerpt, m.location.position.start.row)) =
     [(S "warning",
       S "Reference 'fig:x' on page 1 undefined on input line 42.", 41)]) := by
  refine ⟨fun tex sp lines i origin pkg cap => rfl,
    fun tex sp lines i origin pkg cap => ?_,
    fun tex sp lines i origin pkg cap n hn hnz => ?_,
    fun tex sp lines i origin pkg cap h => ?_, by decide⟩
  · unfold parseWI
    dsimp only
    by_cases h : origin = S "LaTeX" ∧ pkg = none
    · have heq : originTextOf origin pkg = S "LaTeX" :=
        (originTextOf_eq_LaTeX_iff origin pkg).mpr h
      rw [if_pos h, if_neg (fun hne => hne heq)]
    · have hne : originTextOf origin pkg ≠ S "LaTeX" :=
        fun heq => h ((originTextOf_eq_LaTeX_iff origin pkg).mp heq)
      rw [if_neg h, if_pos hne]
  · unfold parseWI
    dsimp only
    rw [hn]
    unfold positionForLine
    dsimp only
    rw [if_neg hnz]
  · unfold parseWI
    dsimp only
    rcases h with h | h
    · rw [h]
      unfold positionForLine
      dsimp only
      rw [if_pos rfl]
    · rw [h]
      rfl

/-- C7 counterexample: for the final text `foo on input line 0.` the
captured line number is `N = 0`, and the emitted start row is 0, not
the `N - 1 = -1` the claim requires for every captured `N`. -/
theorem c7_input_line_zero_cex :
    (parse (S "hdr\nLaTeX Warning: foo on input line 0.") (S "/p/m.tex")).map
      (fun m => (m.excerpt, m.location.position.start.row)) =
      [(S "foo on input line 0.", 0)] ∧
    inputLineNumber (S "foo on input line 0.") = some 0 ∧
    (0 : Int) ≠ 0 - 1 := ⟨by decide, by decide, by decide⟩

/-- Witness for C7 at a concrete captured line number 7. -/
theorem c7_warning_excerpt_and_row_witness :
    (parseWI (S "warning") (S "/p/m.tex") [S "/p/m.tex"] [] 0 (S "LaTeX")
        none (S "x on input line 7")).1.location.position.start.row = 6 :=
  c7_warning_excerpt_and_row.2.2.1 (S "/p/m.tex") [S "/p/m.tex"] [] 0
    (S "LaTeX") none (S "x on input line 7") 7 (by decide) (by decide)

/-- A digit is not whitespace. -/
theorem isWsChar_eq_false_of_digit (c : Char) (h : isDigitChar c = true) :
    isWsChar c = false := by
  unfold isDigitChar at h
  rw [Bool.and_eq_true, decide_eq_true_eq, decide_eq_true_eq] at h
  have h1 : 48 ≤ c.toNat := h.1
  have h2 : c.toNat ≤ 57 := h.2
  unfold isWsChar
  simp only [Bool.or_eq_false_iff, decide_eq_false_iff_not, Bool.and_eq_false_iff]
  omega

/-- A digit is not an opening parenthesis. -/
theorem ne_lparen_of_digit (c : Char) (h : isDigitChar c = true) :
    c ≠ '(' := by
  unfold isDigitChar at h
  rw [Bool.and_eq_true, decide_eq_true_eq, decide_eq_true_eq] at h
  have h1 : 48 ≤ c.toNat := h.1
  intro he
  rw [he] at h1
  exact absurd h1 (by decide)

/-- A line starting with a digit is not a 15-space continuation. -/
theorem tailCapture_none_of_headDigit (minWs : Nat) (hm : 0 < minWs)
    (line : Str) (h : headDigit line = true) :
    tailCapture minWs line = none := by
  cases line with
  | nil => exact absurd h (by decide)
  | cons c rest =>
    unfold headDigit at h
    unfold tailCapture
    rw [List.takeWhile_cons_of_neg (by simp [isWsChar_eq_false_of_digit c h])]
    simp only [List.length_nil]
    rw [if_pos (by omega)]

/-- A line starting with a digit is not a package continuation. -/
theorem pkgCont_none_of_headDigit (name line : Str)
    (h : headDigit line = true) : pkgCont name line = none := by
  cases line with
  | nil => exact absurd h (by decide)
  | cons c rest =>
    unfold headDigit at h
    unfold pkgCont dropLit
    rw [List.cons_append]
    dsimp only
    rw [if_neg (ne_lparen_of_digit c h)]
    rfl

/-- C8 (amended): during continuation collection — provided any
captured package name is free of regex metacharacters, the domain on
which the dynamically built package pattern matches the name literally
(otherwise that pattern changes meaning or throws, see C9) — whenever
the text of the most recently collected chunk — `prevText`, the
initial message text when nothing has been collected yet (not the full
accumulated message) — ends in `line <digits>` and the next physical
log line starts with digits, that line is consumed as a wrapped
number: its leading digits (with an optional trailing period) are
pushed as a `noSpace` chunk (joined with no inserted space), any
remaining text is pushed as an ordinary chunk (joined with a space),
and collection continues with `prevText` set to the raw line;
`noSpace` chunks are joined without a space and ordinary chunks with
one. -/
theorem c8_wrapped_number_heuristic :
    (∀ (pkg : Option Str) (prev line : Str) (rest : List Str),
       pkgLiteral pkg = true →
       endsWithLineNum prev = true → headDigit line = true →
       collectGo pkg (line :: rest) prev =
         ((⟨(digitWrapParts line).1, true⟩ ::
           (if (digitWrapParts line).2 ≠ [] then
              [⟨jsTrim (digitWrapParts line).2, false⟩]
            else [])) ++ (collectGo pkg rest line).1,
          (collectGo pkg rest line).2 + 1)) ∧
    (∀ ps t, joinParts (ps ++ [⟨t, true⟩]) = joinParts ps ++ t) ∧
    (∀ ps t, joinParts (ps ++ [⟨t, false⟩]) =
       if joinParts ps = [] then t else joinParts ps ++ ' ' :: t) := by
  refine ⟨fun pkg prev line rest _ hprev hd => ?_, fun ps t => ?_, fun ps t => ?_⟩
  · have hstep : contStep pkg prev line =
        some (⟨(digitWrapParts line).1, true⟩ ::
          (if (digitWrapParts line).2 ≠ [] then
             [⟨jsTrim (digitWrapParts line).2, false⟩]
           else []), line) := by
      unfold contStep
      rw [tailCapture_none_of_headDigit 15 (by omega) line hd]
      dsimp only
      cases pkg with
      | none =>
        dsimp only
        rw [if_pos ⟨hprev, hd⟩]
      | some name =>
        dsimp only
        rw [pkgCont_none_of_headDigit name line hd]
        dsimp only
        rw [if_pos ⟨hprev, hd⟩]
    rw [collectGo, hstep]
  · unfold joinParts
    rw [List.foldl_append, List.foldl_cons, List.foldl_nil]
    dsimp only
    rw [if_pos (Or.inl rfl)]
  · by_cases h : joinParts ps = []
    · rw [if_pos h]
      unfold joinParts at h ⊢
      rw [List.foldl_append, List.foldl_cons, List.foldl_nil]
      dsimp only
      rw [if_pos (Or.inr h), h, List.nil_append]
    · rw [if_neg h]
      unfold joinParts at h ⊢
      rw [List.foldl_append, List.foldl_cons, List.foldl_nil]
      dsimp only
      rw [if_neg (by simp [h])]


/-- C8 counterexample: after the chunk `42` is collected, the
accumulated message `used on input line 42` ends in `line <digits>` and
the next physical line `7.` starts with digits, yet collection stops
(the chunk `42` does not match the heuristic's `prevText` test) and the
digits are not appended: the final excerpt is `used on input line 42`,
containing no `7`. -/
theorem c8_accumulated_vs_prevText_cex :
    (parse (S "hdr\nLaTeX Warning: used on input line\n               42\n7.")
        (S "/p/m.tex")).map (fun m => m.excerpt) =
      [S "used on input line 42"] ∧
    endsWithLineNum (S "used on input line 42") = true ∧
    headDigit (S "7.") = true ∧
    collectGo none [S "               42", S "7."] (S "used on input line") =
      ([⟨S "42", false⟩], 1) ∧
    ¬ S "7" <:+: S "used on input line 42" := by
  exact ⟨by decide, by decide, by decide, by decide, by decide⟩

/-- Witness for C8 at a concrete wrapped number (`…line 24` followed by
`21. x`). -/
theorem c8_wrapped_number_heuristic_witness :
    collectGo none [S "21. x"] (S "on input line 24") =
      ((⟨(digitWrapParts (S "21. x")).1, true⟩ ::
        (if (digitWrapParts (S "21. x")).2 ≠ [] then
           [⟨jsTrim (digitWrapParts (S "21. x")).2, false⟩]
         else [])) ++ (collectGo none [] (S "21. x")).1,
       (collectGo none [] (S "21. x")).2 + 1) :=
  c8_wrapped_number_heuristic.1 none (S "on input line 24") (S "21. x") []
    (by decide) (by decide) (by decide)

/-- `splitSlash` always yields at least one segment. -/
theorem splitSlash_ne_nil (z : Str) : splitSlash z ≠ [] := by
  cases z with
  | nil => simp [splitSlash]
  | cons c rest =>
    rw [splitSlash]
    split
    · simp
    · split <;> simp

/-- Splitting distributes over a separator. -/
theorem splitSlash_append (x y : Str) :
    splitSlash (x ++ '/' :: y) = splitSlash x ++ splitSlash y := by
  induction x with
  | nil => simp [splitSlash]
  | cons c x ih =>
    rw [List.cons_append, splitSlash, splitSlash]
    by_cases hc : c = '/'
    · rw [if_pos hc, if_pos hc, ih, List.cons_append]
    · rw [if_neg hc, if_neg hc, ih]
      cases hx : splitSlash x with
      | nil => exact absurd hx (splitSlash_ne_nil x)
      | cons l ls => simp

/-- Rendering a segment list that ends in `m` ends in `/m`. -/
theorem renderAbs_append_last (s : List Str) (m : Str) :
    ∃ pre, renderAbs (s ++ [m]) = pre ++ '/' :: m := by
  induction s with
  | nil => exact ⟨[], rfl⟩
  | cons a s ih =>
    cases s with
    | nil => exact ⟨'/' :: a, rfl⟩
    | cons b t =>
      obtain ⟨pre, hpre⟩ := ih
      refine ⟨'/' :: a ++ pre, ?_⟩
      show '/' :: a ++ renderAbs ((b :: t) ++ [m]) = _
      rw [hpre]
      simp [List.append_assoc]

/-- `takeWhile (· ≠ '/')` of slash-free text followed by a slash. -/
theorem takeWhile_stops_at_slash (t z : Str) (h : ∀ x ∈ t, x ≠ '/') :
    (t ++ '/' :: z).takeWhile (· ≠ '/') = t := by
  induction t with
  | nil => simp [List.takeWhile_cons]
  | cons c t ih =>
    rw [List.cons_append, List.takeWhile_cons]
    rw [if_pos (by simpa using h c (List.mem_cons_self c t))]
    rw [ih (fun x hx => h x (List.mem_cons_of_mem c hx))]

/-- The basename of a path ending in `/m` (with `m` nonempty and
slash-free) is `m`. -/
theorem pathBasename_append_last (pre m : Str) (hne : m ≠ [])
    (hall : ∀ x ∈ m, x ≠ '/') : pathBasename (pre ++ '/' :: m) = m := by
  unfold pathBasename
  rw [List.reverse_append, List.reverse_cons, List.append_assoc,
    List.singleton_append]
  cases hrm : m.reverse with
  | nil => exact absurd (List.reverse_eq_nil_iff.mp hrm) hne
  | cons c t =>
    have hmem : ∀ x ∈ c :: t, x ≠ '/' := by
      intro x hx
      apply hall
      rw [← List.mem_reverse, hrm]
      exact hx
    rw [List.cons_append, List.dropWhile_cons,
      if_neg (by simpa using hmem c (List.mem_cons_self c t))]
    rw [← List.cons_append,
      takeWhile_stops_at_slash (c :: t) pre.reverse hmem, ← hrm,
      List.reverse_reverse]

/-- For every base directory, resolving `./main.tex` yields a path
whose basename is `main.tex`. -/
theorem pathBasename_resolve_dot_main (d : Str) :
    pathBasename (pathResolve d (S "./main.tex")) = S "main.tex" := by
  unfold pathResolve
  show pathBasename (renderAbs (normSegs (splitSlash
    (if isAbs d then d ++ '/' :: S "./main.tex"
     else '/' :: (d ++ '/' :: S "./main.tex"))))) = S "main.tex"
  have key : ∀ X : Str,
      pathBasename (renderAbs (normSegs (splitSlash (X ++ '/' :: S "./main.tex")))) =
        S "main.tex" := by
    intro X
    rw [splitSlash_append,
      show splitSlash (S "./main.tex") = [S ".", S "main.tex"] from rfl]
    unfold normSegs
    rw [List.foldl_append]
    rw [show ∀ s₀ : List Str,
        List.foldl (fun st s =>
          if s = [] || s = ['.'] then st
          else if s = ['.', '.'] then st.dropLast
          else st ++ [s]) s₀ [S ".", S "main.tex"] = s₀ ++ [S "main.tex"]
      from fun s₀ => rfl]
    obtain ⟨pre, hpre⟩ := renderAbs_append_last _ (S "main.tex")
    rw [hpre]
    exact pathBasename_append_last pre (S "main.tex") (by decide) (by decide)
  split
  · exact key d
  · exact key ('/' :: d)


/-- With a header line in front, the file:line error parses to exactly
one diagnostic whose path fields are resolved against the root's
directory (proved by evaluation; the root stays symbolic). -/
theorem parse_header_fileline_eval (tex : Str) :
    parse (S "hdr\n./main.tex:5: Missing $ inserted.") tex =
      [{ severity := S "error", excerpt := S "Missing $ inserted.",
         context := none,
         location := { file := pathBasename (pathResolve (pathDirname tex) (S "./main.tex")),
                       fullPath := pathResolve (pathDirname tex) (S "./main.tex"),
                       position := ⟨⟨4, 0⟩, ⟨4, maxSafe⟩⟩ },
         logRange := ((1, 0), (1, 33)) }] := rfl

/-- C2 (amended): for every root file path, a log in which
`./main.tex:5: Missing $ inserted.` appears after the (always skipped)
first line yields exactly one diagnostic, with severity `error`,
`location.file` `main.tex` and start row 4. -/
theorem c2_file_line_error_after_header (tex : Str) :
    (parse (S "hdr\n./main.tex:5: Missing $ inserted.") tex).map
      (fun m => (m.severity, m.location.file, m.location.position.start.row)) =
    [(S "error", S "main.tex", 4)] := by
  rw [parse_header_fileline_eval tex]
  rw [List.map_cons, List.map_nil]
  dsimp only
  rw [pathBasename_resolve_dot_main (pathDirname tex)]

/-- C2 counterexample: when `./main.tex:5: Missing $ inserted.` is the
whole log, it is the first line, which `parse` always skips: the result
is empty, not the single claimed diagnostic. -/
theorem c2_single_line_log_cex :
    parse (S "./main.tex:5: Missing $ inserted.") (S "/proj/main.tex") = [] ∧
    (parse (S "./main.tex:5: Missing $ inserted.") (S "/proj/main.tex")).length ≠ 1 := by
  exact ⟨by decide, by decide⟩

end LTools
